import Mathlib

/-!
# Verification of the collection-reducer core of `react-frontend-demo`

Shallow embedding of the state-transition ("reducer") functions of the
repository: the local billing reducer (`src/pages/billing/BillingUseReducer.jsx`),
the Redux Toolkit billing slice (`src/store/billingSlice.jsx`), the cart
reducer (`src/pages/cart/CartRedux.jsx` / `CartUseState.jsx`) and the blog
reducer (`src/pages/blog/BlogUseReducer.jsx`).

Modelling conventions:
* JavaScript numbers are embedded as `ℚ` (ids, which come from `Date.now()`,
  as `ℤ`); ISO timestamp strings as `String`.
* A JavaScript object is a structure; a field that may be absent is an
  `Option`.  JavaScript truthiness of a numeric field (`item.originalPrice ||
  item.price`, `if (!item.originalPrice)`, `if (item.originalPrice)`) treats
  both an absent field and the value `0` as falsy, and similarly an absent or
  empty string is falsy; the helpers `qOr`, `qTruthy` and `sOr` embed this.
* The slice reducers that call `new Date().toISOString()` receive the clock
  reading as an explicit `now : String` argument; every slice reducer takes
  it, whether or not its body reads it, so that clock (in)dependence can be
  stated uniformly.
* `Array.prototype.findIndex` followed by an in-place update of the found
  element is embedded as `modifyFirst` (rewrite the first element satisfying
  the predicate, keep everything else).
-/

set_option autoImplicit false

/-- JavaScript `a || b` for a possibly absent number `a`:
`a` when present and nonzero (truthy), otherwise `b`. -/
def qOr (a : Option ℚ) (b : ℚ) : ℚ :=
  match a with
  | some v => if v = 0 then b else v
  | none => b

/-- JavaScript truthiness of a possibly absent number: present and nonzero. -/
def qTruthy (a : Option ℚ) : Bool :=
  match a with
  | some v => decide (v ≠ 0)
  | none => false

/-- JavaScript `a || b` for a possibly absent string `a`:
`a` when present and non-empty (truthy), otherwise `b`. -/
def sOr (a : Option String) (b : String) : String :=
  match a with
  | some v => if v = "" then b else v
  | none => b

/-- Rewrite the first element of a list satisfying `p` by `f`
(the embedding of `findIndex` + assignment to that index; the list is
unchanged when no element matches). -/
def modifyFirst {α : Type} (p : α → Bool) (f : α → α) : List α → List α
  | [] => []
  | x :: xs => if p x then f x :: xs else x :: modifyFirst p f xs

/-- A billing item.  The local billing reducer and the billing slice both
operate on objects with these fields; `taxable` defaults to `true` (the
slice's `taxable: action.payload.taxable !== false`), and the discount /
audit fields are absent until the corresponding operation sets them. -/
structure BItem where
  id : ℤ
  name : String
  price : ℚ
  addedAt : String
  category : String
  taxable : Bool := true
  originalPrice : Option ℚ := none
  discountApplied : Option ℚ := none
  discountedAt : Option String := none
  updatedAt : Option String := none
  deriving DecidableEq, Repr

/-- A partial-fields patch for a billing item (the `updates` object of
`UPDATE_ITEM` / `updateItem`): each field is either absent from the patch or
carries a replacement value.  A spread `{ ...item, ...updates }` overwrites
exactly the fields present in the patch — including `id`. -/
structure BPatch where
  id : Option ℤ := none
  name : Option String := none
  price : Option ℚ := none
  addedAt : Option String := none
  category : Option String := none
  originalPrice : Option ℚ := none
  deriving DecidableEq, Repr

/-- The shallow merge `{ ...item, ...updates }`. -/
def mergePatch (item : BItem) (u : BPatch) : BItem :=
  { item with
    id := u.id.getD item.id
    name := u.name.getD item.name
    price := u.price.getD item.price
    addedAt := u.addedAt.getD item.addedAt
    category := u.category.getD item.category
    originalPrice := match u.originalPrice with
      | some v => some v
      | none => item.originalPrice }

/-- Actions of the local billing reducer in `BillingUseReducer.jsx`.
`other` stands for any action whose `type` string is none of the five
recognized tags (the reducer's `default` branch). -/
inductive BAction where
  | addItem (payload : BItem)
  | removeItem (id : ℤ)
  | updateItem (id : ℤ) (updates : BPatch)
  | clearItems
  | applyDiscount (id : ℤ) (discount : ℚ)
  | other (type : String)
  deriving DecidableEq, Repr

/-- The local billing reducer (`billingReducer`, BillingUseReducer.jsx
lines 20–59).  `ADD_ITEM` appends the payload, `REMOVE_ITEM` filters by id,
`UPDATE_ITEM` spreads the patch over the matching item, `CLEAR_ITEMS`
empties the collection, `APPLY_DISCOUNT` re-prices the matching item off
`item.originalPrice || item.price`, and the default branch returns the
state unchanged. -/
def billingReducer (state : List BItem) (action : BAction) : List BItem :=
  match action with
  | .addItem payload => state ++ [payload]
  | .removeItem i => state.filter (fun item => item.id != i)
  | .updateItem i updates =>
      state.map (fun item => if item.id == i then mergePatch item updates else item)
  | .clearItems => []
  | .applyDiscount i d =>
      state.map (fun item =>
        if item.id == i then
          { item with
            originalPrice := some (qOr item.originalPrice item.price)
            price := qOr item.originalPrice item.price * (1 - d) }
        else item)
  | .other _ => state

/-- First item of the collection with the given id (`find` / `findIndex`). -/
def getItem (s : List BItem) (i : ℤ) : Option BItem :=
  s.find? (fun item => item.id == i)

namespace billingSlice

/-- Payload of the slice's `addItem` action: the caller-supplied object,
whose `addedAt` / `category` / `taxable` fields may be absent. -/
structure AddPayload where
  id : ℤ
  name : String
  price : ℚ
  addedAt : Option String := none
  category : Option String := none
  taxable : Option Bool := none
  deriving DecidableEq, Repr

/-- `billingSlice.addItem` (billingSlice.jsx lines 45–55): push the payload
with `addedAt: action.payload.addedAt || new Date().toISOString()`,
`category: action.payload.category || 'general'` and
`taxable: action.payload.taxable !== false`.  `now` is the clock reading
taken inside the reducer. -/
def addItem (now : String) (state : List BItem) (payload : AddPayload) : List BItem :=
  state ++ [{ id := payload.id
              name := payload.name
              price := payload.price
              addedAt := sOr payload.addedAt now
              category := sOr payload.category "general"
              taxable := payload.taxable != some false }]

/-- `billingSlice.removeItem` (lines 64–67): filter out the matching id.
The body does not read the clock. -/
def removeItem (now : String) (state : List BItem) (i : ℤ) : List BItem :=
  state.filter (fun item => item.id != i)

/-- `billingSlice.updateItem` (lines 76–86): merge the patch into the item
found by `findIndex` and stamp `updatedAt: new Date().toISOString()`;
no-op when `findIndex` returns `-1`. -/
def updateItem (now : String) (state : List BItem) (i : ℤ) (updates : BPatch) : List BItem :=
  modifyFirst (fun item => item.id == i)
    (fun item => { mergePatch item updates with updatedAt := some now }) state

/-- `billingSlice.applyDiscount` (lines 96–114): on the item found by
`findIndex`, set `originalPrice` to the current price when falsy, re-price
off `item.originalPrice || item.price`, and stamp `discountApplied` /
`discountedAt`. -/
def applyDiscount (now : String) (state : List BItem) (i : ℤ) (d : ℚ) : List BItem :=
  modifyFirst (fun item => item.id == i)
    (fun item =>
      let op : Option ℚ := if qTruthy item.originalPrice then item.originalPrice else some item.price
      { item with
        originalPrice := op
        price := qOr op item.price * (1 - d)
        discountApplied := some d
        discountedAt := some now }) state

/-- `billingSlice.removeDiscount` (lines 123–137): on the item found by
`findIndex`, when `item.originalPrice` is truthy restore
`price = originalPrice` and delete `originalPrice`, `discountApplied`,
`discountedAt`; otherwise leave the item as is.  The body does not read
the clock. -/
def removeDiscount (now : String) (state : List BItem) (i : ℤ) : List BItem :=
  modifyFirst (fun item => item.id == i)
    (fun item =>
      match item.originalPrice with
      | some v =>
          if v = 0 then item
          else { item with
                 price := v
                 originalPrice := none
                 discountApplied := none
                 discountedAt := none }
      | none => item) state

/-- `billingSlice.clearItems` (lines 145–148). -/
def clearItems (now : String) (state : List BItem) : List BItem :=
  []

/-- `billingSlice.setItems` (lines 157–159): wholesale replacement. -/
def setItems (now : String) (state : List BItem) (newItems : List BItem) : List BItem :=
  newItems

end billingSlice

/-- A cart item (`{ id, name, price, qty }`). -/
structure CItem where
  id : ℤ
  name : String
  price : ℚ
  qty : ℤ
  deriving DecidableEq, Repr

/-- A product reference (`{ id, name, price }`), the payload of the cart's
`ADD` action. -/
structure Product where
  id : ℤ
  name : String
  price : ℚ
  deriving DecidableEq, Repr

/-- Actions of the cart reducer; `other` is any unrecognized `type`. -/
inductive CartAction where
  | add (payload : Product)
  | updateQty (id : ℤ) (amount : ℤ)
  | other (type : String)
  deriving DecidableEq, Repr

/-- The cart reducer (`cartReducer`, CartRedux.jsx lines 215–250): `ADD`
increments `qty` of the existing item with the same id or appends a new
item with `qty: 1`; `UPDATE_QTY` adds `amount` to the matching item's
`qty` and then filters out items with `qty <= 0`; anything else is the
default branch. -/
def cartReducer (state : List CItem) (action : CartAction) : List CItem :=
  match action with
  | .add p =>
      if state.any (fun item => item.id == p.id) then
        state.map (fun item =>
          if item.id == p.id then { item with qty := item.qty + 1 } else item)
      else
        state ++ [{ id := p.id, name := p.name, price := p.price, qty := 1 }]
  | .updateQty i amount =>
      (state.map (fun item =>
        if item.id == i then { item with qty := item.qty + amount } else item)).filter
        (fun item => item.qty > 0)
  | .other _ => state

/-- `addToCart` of CartUseState.jsx (lines 44–65): same algorithm as the
reducer's `ADD` branch, written as the `setCart` functional update. -/
def addToCart (currentCart : List CItem) (product : Product) : List CItem :=
  if currentCart.any (fun item => item.id == product.id) then
    currentCart.map (fun item =>
      if item.id == product.id then { item with qty := item.qty + 1 } else item)
  else
    currentCart ++ [{ id := product.id, name := product.name, price := product.price, qty := 1 }]

/-- `updateQuantity` of CartUseState.jsx (lines 74–84): map the delta onto
the matching item, then drop items with `qty <= 0`. -/
def updateQuantity (currentCart : List CItem) (i : ℤ) (amount : ℤ) : List CItem :=
  (currentCart.map (fun item =>
    if item.id == i then { item with qty := item.qty + amount } else item)).filter
    (fun item => item.qty > 0)

/-- First cart item with the given id. -/
def getCItem (s : List CItem) (i : ℤ) : Option CItem :=
  s.find? (fun item => item.id == i)

/-- Run the cart reducer over a sequence of actions starting from the
empty cart. -/
def cartRun (acts : List CartAction) : List CItem :=
  acts.foldl cartReducer []

/-- A blog post. -/
structure Post where
  id : ℤ
  title : String
  content : String
  category : String
  deriving DecidableEq, Repr

/-- A partial-fields patch for a blog post. -/
structure PostPatch where
  id : Option ℤ := none
  title : Option String := none
  content : Option String := none
  category : Option String := none
  deriving DecidableEq, Repr

/-- The shallow merge `{ ...post, ...updates }`. -/
def mergePostPatch (post : Post) (u : PostPatch) : Post :=
  { id := u.id.getD post.id
    title := u.title.getD post.title
    content := u.content.getD post.content
    category := u.category.getD post.category }

/-- Actions of the blog reducer; `other` is any unrecognized `type`. -/
inductive BlogAction where
  | addPost (payload : Post)
  | deletePost (id : ℤ)
  | updatePost (id : ℤ) (updates : PostPatch)
  | clearPosts
  | other (type : String)
  deriving DecidableEq, Repr

/-- The blog reducer (`blogReducer`, BlogUseReducer.jsx lines 20–48). -/
def blogReducer (state : List Post) (action : BlogAction) : List Post :=
  match action with
  | .addPost payload => state ++ [payload]
  | .deletePost i => state.filter (fun post => post.id != i)
  | .updatePost i updates =>
      state.map (fun post => if post.id == i then mergePostPatch post updates else post)
  | .clearPosts => []
  | .other _ => state

/-- One `addItem` call of the `BillingUseReducer` component (lines 95–127):
the component builds the payload `{ id: Date.now(), name, price, addedAt:
new Date().toISOString(), category: 'general' }` and dispatches `ADD_ITEM`.
`now` is the `Date.now()` reading, `nowISO` the ISO string of the same
instant. -/
structure AddCall where
  now : ℤ
  name : String
  price : ℚ
  nowISO : String
  deriving DecidableEq, Repr

/-- The billing item built by the component for one `addItem` call. -/
def itemOfCall (c : AddCall) : BItem :=
  { id := c.now, name := c.name, price := c.price, addedAt := c.nowISO, category := "general" }

/-- Run a sequence of component-level `addItem` calls against the local
billing reducer, starting from the empty collection. -/
def billingAddRun (calls : List AddCall) : List BItem :=
  calls.foldl (fun s c => billingReducer s (.addItem (itemOfCall c))) []

/-! ## General list helpers -/

/-- `find?` commutes with a map that does not change the predicate's verdict. -/
theorem find?_map_pres {α : Type} (p : α → Bool) (f : α → α)
    (hf : ∀ y, p (f y) = p y) (s : List α) :
    (s.map f).find? p = (s.find? p).map f := by
  induction s with
  | nil => rfl
  | cons x xs ih =>
    cases hx : p x with
    | true =>
      rw [List.map_cons, List.find?_cons_of_pos _ (by rw [hf, hx]),
        List.find?_cons_of_pos _ hx, Option.map_some']
    | false =>
      rw [List.map_cons, List.find?_cons_of_neg _ (by simp [hf, hx]),
        List.find?_cons_of_neg _ (by simp [hx]), ih]

/-- `find?` after rewriting the first match: the found element is the
rewritten one, provided the rewrite does not change the verdict. -/
theorem find?_modifyFirst {α : Type} (p : α → Bool) (f : α → α)
    (hf : ∀ y, p (f y) = p y) (s : List α) :
    (modifyFirst p f s).find? p = (s.find? p).map f := by
  induction s with
  | nil => rfl
  | cons x xs ih =>
    cases hx : p x with
    | true =>
      rw [modifyFirst, if_pos hx, List.find?_cons_of_pos _ (by rw [hf, hx]),
        List.find?_cons_of_pos _ hx, Option.map_some']
    | false =>
      rw [modifyFirst, if_neg (by simp [hx]), List.find?_cons_of_neg _ (by simp [hx]),
        List.find?_cons_of_neg _ (by simp [hx]), ih]

/-- A map that fixes every member of a list leaves it unchanged. -/
theorem map_eq_self_of {α : Type} (f : α → α) (s : List α)
    (h : ∀ x ∈ s, f x = x) : s.map f = s := by
  induction s with
  | nil => rfl
  | cons x xs ih =>
    rw [List.map_cons, h x (List.mem_cons_self x xs),
      ih (fun y hy => h y (List.mem_cons_of_mem x hy))]

/-- A filter whose predicate holds on every member leaves the list unchanged. -/
theorem filter_eq_self_of {α : Type} (p : α → Bool) (s : List α)
    (h : ∀ x ∈ s, p x = true) : s.filter p = s := by
  induction s with
  | nil => rfl
  | cons x xs ih =>
    rw [List.filter_cons, if_pos (h x (List.mem_cons_self x xs)),
      ih (fun y hy => h y (List.mem_cons_of_mem x hy))]

/-- Rewriting the first match is the identity when no element matches. -/
theorem modifyFirst_of_none {α : Type} (p : α → Bool) (f : α → α) (s : List α)
    (h : s.find? p = none) : modifyFirst p f s = s := by
  induction s with
  | nil => rfl
  | cons x xs ih =>
    cases hx : p x with
    | true => rw [List.find?_cons_of_pos _ hx] at h; exact absurd h (by simp)
    | false =>
      rw [List.find?_cons_of_neg _ (by simp [hx])] at h
      rw [modifyFirst, if_neg (by simp [hx]), ih h]

/-- Rewriting the first match is the identity when the rewrite fixes it. -/
theorem modifyFirst_of_fix {α : Type} (p : α → Bool) (f : α → α) (s : List α)
    (x : α) (h : s.find? p = some x) (hx : f x = x) : modifyFirst p f s = s := by
  induction s with
  | nil => simp [List.find?] at h
  | cons y ys ih =>
    cases hy : p y with
    | true =>
      rw [List.find?_cons_of_pos _ hy, Option.some_inj] at h
      rw [modifyFirst, if_pos hy, h, hx]
    | false =>
      rw [List.find?_cons_of_neg _ (by simp [hy])] at h
      rw [modifyFirst, if_neg (by simp [hy]), ih h]

/-- Folding "append one built element per call" produces the map of the calls. -/
theorem foldl_append_eq_map {α β : Type} (g : β → α) (calls : List β) (a : List α) :
    calls.foldl (fun s c => s ++ [g c]) a = a ++ calls.map g := by
  induction calls generalizing a with
  | nil => simp
  | cons c cs ih => rw [List.foldl_cons, ih, List.map_cons]; simp

/-! ## Cart claims -/

/-- One cart transition preserves "every quantity is at least 1". -/
theorem cartReducer_qty_pres (s : List CItem) (a : CartAction)
    (hs : ∀ x ∈ s, 1 ≤ x.qty) : ∀ x ∈ cartReducer s a, 1 ≤ x.qty := by
  cases a with
  | add p =>
    intro x hx
    simp only [cartReducer] at hx
    by_cases hany : s.any (fun item => item.id == p.id) = true
    · rw [if_pos hany] at hx
      obtain ⟨y, hy, rfl⟩ := List.mem_map.1 hx
      have hq := hs y hy
      by_cases hid : (y.id == p.id) = true
      · rw [if_pos hid]; show 1 ≤ y.qty + 1; omega
      · rw [if_neg hid]; exact hq
    · rw [if_neg hany] at hx
      rcases List.mem_append.1 hx with h | h
      · exact hs x h
      · rw [List.mem_singleton.1 h]
  | updateQty i amt =>
    intro x hx
    simp only [cartReducer] at hx
    have h2 := (List.mem_filter.1 hx).2
    have h3 : 0 < x.qty := by simpa using h2
    omega
  | other t => exact hs

/-- Quantities stay at least 1 along every action sequence from the empty cart. -/
theorem cartRun_qty (acts : List CartAction) (s : List CItem)
    (hs : ∀ x ∈ s, 1 ≤ x.qty) : ∀ x ∈ acts.foldl cartReducer s, 1 ≤ x.qty := by
  induction acts generalizing s with
  | nil => exact hs
  | cons a as ih => exact ih (cartReducer s a) (cartReducer_qty_pres s a hs)

/-- C4: every cart collection reachable from the empty collection by
`ADD` (AddOrIncrement) and `UPDATE_QTY` (UpdateQty) operations has integer
`qty >= 1` for every item present; and the invariant is maintained by
removal — an item whose quantity would drop to 0 or below is absent from
the resulting collection (its id no longer occurs), not clamped. -/
theorem cart_qty_invariant :
    (∀ acts : List CartAction, ∀ x ∈ cartRun acts, 1 ≤ x.qty) ∧
    (∀ (s : List CItem) (i amt : ℤ),
      (∀ x ∈ s, x.id = i → x.qty + amt ≤ 0) →
      ∀ y ∈ cartReducer s (.updateQty i amt), y.id ≠ i) := by
  constructor
  · intro acts x hx
    exact cartRun_qty acts [] (by intro z hz; simp at hz) x hx
  · intro s i amt h y hy
    simp only [cartReducer] at hy
    obtain ⟨hy1, hy2⟩ := List.mem_filter.1 hy
    obtain ⟨z, hz, rfl⟩ := List.mem_map.1 hy1
    by_cases hid : (z.id == i) = true
    · rw [if_pos hid] at hy2 ⊢
      have hzi : z.id = i := by simpa using hid
      have hle := h z hz hzi
      have hq : 0 < z.qty + amt := by simpa using hy2
      exact absurd hq (by omega)
    · rw [if_neg hid] at hy2 ⊢
      simpa using hid

/-- Witness for C4 at concrete inputs: adding the Laptop product twice
leaves an item of quantity 2 (at least 1), and dropping an item's quantity
to 0 removes its id from the collection. -/
theorem cart_qty_invariant_witness :
    1 ≤ ({ id := 1, name := "Laptop", price := 1200, qty := 2 } : CItem).qty ∧
    ({ id := 2, name := "B", price := 5, qty := 3 } : CItem).id ≠ (1 : ℤ) := by
  constructor
  · exact cart_qty_invariant.1
      [CartAction.add ⟨1, "Laptop", 1200⟩, CartAction.add ⟨1, "Laptop", 1200⟩]
      { id := 1, name := "Laptop", price := 1200, qty := 2 } (by decide)
  · exact cart_qty_invariant.2
      [⟨1, "A", 5, 1⟩, ⟨2, "B", 5, 3⟩] 1 (-1) (by decide)
      { id := 2, name := "B", price := 5, qty := 3 } (by decide)

/-- The element returned by `find?` satisfies the predicate. -/
theorem found_sat {α : Type} (p : α → Bool) (s : List α) (x : α)
    (h : s.find? p = some x) : p x = true := by
  induction s with
  | nil => simp [List.find?] at h
  | cons y ys ih =>
    cases hy : p y with
    | true =>
      rw [List.find?_cons_of_pos _ hy, Option.some_inj] at h
      rw [← h]; exact hy
    | false =>
      rw [List.find?_cons_of_neg _ (by simp [hy])] at h
      exact ih h

/-- The `ADD` branch of the cart reducer preserves ids elementwise. -/
theorem cart_inc_id_pres (j : ℤ) (y : CItem) :
    ((if y.id == j then { y with qty := y.qty + 1 } else y) : CItem).id = y.id := by
  by_cases h : (y.id == j) = true
  · rw [if_pos h]
  · rw [if_neg h]

/-- C5: `ADD` with an id already in the cart increments that item's `qty`
by 1 in place (matching by id only) and adds no new item; with a fresh id
it appends a new item with `qty = 1`.  From the empty cart, adding the same
product twice gives one item with `qty = 2`, and adding two distinct ids
gives two items each with `qty = 1`.  `addToCart` of the useState variant
computes the same function. -/
theorem addOrIncrement_spec (s : List CItem) (p : Product) :
    ((∃ y ∈ s, y.id = p.id) →
      (cartReducer s (.add p)).length = s.length ∧
      (∀ x, getCItem s p.id = some x →
        getCItem (cartReducer s (.add p)) p.id = some { x with qty := x.qty + 1 }) ∧
      (∀ y ∈ s, y.id ≠ p.id → y ∈ cartReducer s (.add p))) ∧
    ((∀ y ∈ s, y.id ≠ p.id) →
      cartReducer s (.add p) = s ++ [{ id := p.id, name := p.name, price := p.price, qty := 1 }]) ∧
    cartReducer (cartReducer [] (.add p)) (.add p)
      = [{ id := p.id, name := p.name, price := p.price, qty := 2 }] ∧
    (∀ q : Product, q.id ≠ p.id →
      cartReducer (cartReducer [] (.add p)) (.add q)
        = [{ id := p.id, name := p.name, price := p.price, qty := 1 },
           { id := q.id, name := q.name, price := q.price, qty := 1 }]) ∧
    addToCart s p = cartReducer s (.add p) := by
  refine ⟨?_, ?_, ?_, ?_, rfl⟩
  · rintro ⟨y, hy, hyid⟩
    have hany : s.any (fun item => item.id == p.id) = true :=
      List.any_eq_true.2 ⟨y, hy, by simpa using hyid⟩
    have hred : cartReducer s (.add p)
        = s.map (fun item => if item.id == p.id then { item with qty := item.qty + 1 } else item) := by
      simp only [cartReducer, if_pos hany]
    refine ⟨by rw [hred, List.length_map], ?_, ?_⟩
    · intro x hx
      rw [hred, getCItem, find?_map_pres _ _ (fun z => by rw [cart_inc_id_pres]) s]
      rw [getCItem] at hx
      rw [hx, Option.map_some']
      have hxp : (x.id == p.id) = true := found_sat _ s x hx
      rw [if_pos hxp]
    · intro y' hy' hne
      rw [hred]
      refine List.mem_map.2 ⟨y', hy', ?_⟩
      rw [if_neg (by simpa using hne)]
  · intro h
    have hany : s.any (fun item => item.id == p.id) = false := by
      rw [List.any_eq_false]
      intro x hx
      simpa using h x hx
    simp only [cartReducer, hany, Bool.false_eq_true, if_false]
  · simp [cartReducer]
  · intro q hq
    have h1 : (p.id == q.id) = false := by
      simp only [beq_eq_false_iff_ne]
      exact Ne.symm hq
    simp [cartReducer, h1]

/-- Witness for C5: concrete Laptop/Mouse scenarios from products of the demo. -/
theorem addOrIncrement_spec_witness :
    (cartReducer [⟨1, "Laptop", 1200, 1⟩] (.add ⟨1, "Laptop", 1200⟩)).length = 1 ∧
    getCItem (cartReducer [⟨1, "Laptop", 1200, 1⟩] (.add ⟨1, "Laptop", 1200⟩)) 1
      = some ⟨1, "Laptop", 1200, 2⟩ ∧
    cartReducer (cartReducer [] (.add ⟨1, "Laptop", 1200⟩)) (.add ⟨1, "Laptop", 1200⟩)
      = [⟨1, "Laptop", 1200, 2⟩] ∧
    cartReducer (cartReducer [] (.add ⟨1, "Laptop", 1200⟩)) (.add ⟨2, "Mouse", 25⟩)
      = [⟨1, "Laptop", 1200, 1⟩, ⟨2, "Mouse", 25, 1⟩] ∧
    cartReducer [⟨2, "Mouse", 25, 1⟩] (.add ⟨1, "Laptop", 1200⟩)
      = [⟨2, "Mouse", 25, 1⟩, ⟨1, "Laptop", 1200, 1⟩] := by
  have h := addOrIncrement_spec [⟨1, "Laptop", 1200, 1⟩] ⟨1, "Laptop", 1200⟩
  have h2 := addOrIncrement_spec [⟨2, "Mouse", 25, 1⟩] ⟨1, "Laptop", 1200⟩
  refine ⟨(h.1 (by decide)).1, ?_, h.2.2.1, h.2.2.2.1 ⟨2, "Mouse", 25⟩ (by decide), ?_⟩
  · exact (h.1 (by decide)).2.1 ⟨1, "Laptop", 1200, 1⟩ (by decide)
  · exact h2.2.1 (by decide)

/-- When every item with the target id would drop to quantity 0 or below,
the map-then-filter of `UPDATE_QTY` is exactly "delete the matching id". -/
theorem updateQty_removes (s : List CItem) (i amt : ℤ)
    (hq : ∀ x ∈ s, 1 ≤ x.qty) (hneg : ∀ x ∈ s, x.id = i → x.qty + amt ≤ 0) :
    (s.map (fun item => if item.id == i then { item with qty := item.qty + amt } else item)).filter
      (fun item => item.qty > 0) = s.filter (fun item => item.id != i) := by
  induction s with
  | nil => rfl
  | cons x xs ih =>
    have hq' := fun y hy => hq y (List.mem_cons_of_mem x hy)
    have hneg' := fun y hy => hneg y (List.mem_cons_of_mem x hy)
    simp only [List.map_cons, List.filter_cons]
    by_cases h : (x.id == i) = true
    · have hxi : x.id = i := by simpa using h
      have h1 := hneg x (List.mem_cons_self x xs) hxi
      rw [if_pos h, if_neg ?hc1, if_neg ?hc2, ih hq' hneg']
      case hc1 =>
        show ¬ (decide (({ x with qty := x.qty + amt } : CItem).qty > 0) = true)
        simp only [decide_eq_true_eq]
        show ¬ (0 < x.qty + amt)
        omega
      case hc2 => simp [hxi]
    · have h2 := hq x (List.mem_cons_self x xs)
      rw [if_neg h, if_pos ?hc3, if_pos ?hc4, ih hq' hneg']
      case hc3 =>
        show decide (x.qty > 0) = true
        simp only [decide_eq_true_eq]
        omega
      case hc4 => simpa using h

/-- C6: given the documented cart invariant (`qty >= 1` for every item),
`UPDATE_QTY(id, delta)` adds the signed delta to the matching item's `qty`
(and nothing is removed) when every matching item stays at `qty >= 1`;
removes the matching id entirely when the quantity would drop to 0 or
below; and leaves the collection unchanged when the id is not present.
`updateQuantity` of the useState variant computes the same function. -/
theorem updateQty_spec (s : List CItem) (i amt : ℤ) :
    ((∀ x ∈ s, 1 ≤ x.qty) →
      ((∀ x ∈ s, x.id = i → 1 ≤ x.qty + amt) →
        cartReducer s (.updateQty i amt)
          = s.map (fun x => if x.id == i then { x with qty := x.qty + amt } else x)) ∧
      ((∀ x ∈ s, x.id = i → x.qty + amt ≤ 0) →
        cartReducer s (.updateQty i amt) = s.filter (fun x => x.id != i)) ∧
      ((∀ x ∈ s, x.id ≠ i) → cartReducer s (.updateQty i amt) = s)) ∧
    updateQuantity s i amt = cartReducer s (.updateQty i amt) := by
  refine ⟨fun hq => ⟨?_, ?_, ?_⟩, rfl⟩
  · intro hpos
    simp only [cartReducer]
    apply filter_eq_self_of
    intro z hz
    obtain ⟨x, hx, rfl⟩ := List.mem_map.1 hz
    by_cases h : (x.id == i) = true
    · rw [if_pos h]
      have h1 := hpos x hx (by simpa using h)
      show decide (x.qty + amt > 0) = true
      simp only [decide_eq_true_eq]
      omega
    · rw [if_neg h]
      have h2 := hq x hx
      show decide (x.qty > 0) = true
      simp only [decide_eq_true_eq]
      omega
  · intro hneg
    simp only [cartReducer]
    exact updateQty_removes s i amt hq hneg
  · intro hno
    simp only [cartReducer]
    rw [map_eq_self_of _ s (fun x hx => by rw [if_neg (by simpa using hno x hx)])]
    apply filter_eq_self_of
    intro x hx
    have := hq x hx
    show decide (x.qty > 0) = true
    simp only [decide_eq_true_eq]
    omega

/-- Witness for C6 at concrete inputs: decrement within range updates in
place, decrement to zero removes the item, and an absent id is a no-op. -/
theorem updateQty_spec_witness :
    cartReducer [⟨1, "A", 10, 2⟩, ⟨2, "B", 5, 1⟩] (.updateQty 1 (-1))
      = [⟨1, "A", 10, 1⟩, ⟨2, "B", 5, 1⟩] ∧
    cartReducer [⟨1, "A", 10, 2⟩, ⟨2, "B", 5, 1⟩] (.updateQty 1 (-2))
      = [⟨2, "B", 5, 1⟩] ∧
    cartReducer [⟨1, "A", 10, 2⟩] (.updateQty 7 5) = [⟨1, "A", 10, 2⟩] ∧
    updateQuantity [⟨1, "A", 10, 2⟩, ⟨2, "B", 5, 1⟩] 1 (-1)
      = cartReducer [⟨1, "A", 10, 2⟩, ⟨2, "B", 5, 1⟩] (.updateQty 1 (-1)) := by
  have h1 := updateQty_spec [⟨1, "A", 10, 2⟩, ⟨2, "B", 5, 1⟩] 1 (-1)
  have h2 := updateQty_spec [⟨1, "A", 10, 2⟩, ⟨2, "B", 5, 1⟩] 1 (-2)
  have h3 := updateQty_spec [⟨1, "A", 10, 2⟩] 7 5
  refine ⟨((h1.1 (by decide)).1 (by decide)).trans (by decide),
    ((h2.1 (by decide)).2.1 (by decide)).trans (by decide),
    (h3.1 (by decide)).2.2 (by decide), h1.2⟩

/-! ## Billing discount claims -/

/-- The per-item function of the local reducer's `APPLY_DISCOUNT` branch. -/
def bapplyFun (i : ℤ) (d : ℚ) : BItem → BItem := fun item =>
  if item.id == i then
    { item with
      originalPrice := some (qOr item.originalPrice item.price)
      price := qOr item.originalPrice item.price * (1 - d) }
  else item

/-- The per-item function of the slice's `applyDiscount`. -/
def sapplyFun (now : String) (d : ℚ) : BItem → BItem := fun item =>
  let op : Option ℚ := if qTruthy item.originalPrice then item.originalPrice else some item.price
  { item with
    originalPrice := op
    price := qOr op item.price * (1 - d)
    discountApplied := some d
    discountedAt := some now }

theorem bapplyFun_id (i : ℤ) (d : ℚ) (y : BItem) : (bapplyFun i d y).id = y.id := by
  by_cases h : (y.id == i) = true
  · rw [bapplyFun, if_pos h]
  · rw [bapplyFun, if_neg h]

theorem sapplyFun_id (now : String) (d : ℚ) (y : BItem) : (sapplyFun now d y).id = y.id := rfl

/-- Looking up the target id after the local `APPLY_DISCOUNT`. -/
theorem getItem_bapply (s : List BItem) (i : ℤ) (d : ℚ) :
    getItem (billingReducer s (.applyDiscount i d)) i = (getItem s i).map (bapplyFun i d) := by
  show ((s.map (bapplyFun i d)).find? (fun item => item.id == i))
      = (s.find? (fun item => item.id == i)).map (bapplyFun i d)
  exact find?_map_pres _ _ (fun y => by rw [bapplyFun_id]) s

/-- Looking up the target id after the slice's `applyDiscount`. -/
theorem getItem_sapply (now : String) (s : List BItem) (i : ℤ) (d : ℚ) :
    getItem (billingSlice.applyDiscount now s i d) i = (getItem s i).map (sapplyFun now d) := by
  show ((modifyFirst (fun item => item.id == i) (sapplyFun now d) s).find? (fun item => item.id == i))
      = (s.find? (fun item => item.id == i)).map (sapplyFun now d)
  exact find?_modifyFirst _ _ (fun y => by rw [sapplyFun_id]) s

/-- C1: on a collection containing an undiscounted item with the target id,
`ApplyDiscount(id, d1)` followed by `ApplyDiscount(id, d2)` (discount
fractions in `[0,1)`) leaves that item's price at `originalPrice * (1 - d2)`
where `originalPrice` is the item's price before the first of the two
applications — the second application re-bases off the original price and
does not compound.  This holds both for the local billing reducer and for
the billing slice (`now1`, `now2` are the clock readings of the two
dispatches). -/
theorem applyDiscount_rebases (s : List BItem) (i : ℤ) (x : BItem) (d1 d2 : ℚ)
    (now1 now2 : String)
    (hx : getItem s i = some x) (hund : x.originalPrice = none)
    (hd1 : 0 ≤ d1 ∧ d1 < 1) (hd2 : 0 ≤ d2 ∧ d2 < 1) :
    (∃ y, getItem (billingReducer (billingReducer s (.applyDiscount i d1)) (.applyDiscount i d2)) i
        = some y ∧ y.price = x.price * (1 - d2)) ∧
    (∃ y, getItem (billingSlice.applyDiscount now2
          (billingSlice.applyDiscount now1 s i d1) i d2) i
        = some y ∧ y.price = x.price * (1 - d2)) := by
  have hxp : (x.id == i) = true := found_sat _ s x hx
  constructor
  · refine ⟨bapplyFun i d2 (bapplyFun i d1 x), ?_, ?_⟩
    · rw [getItem_bapply, getItem_bapply, hx, Option.map_some', Option.map_some']
    · have h1 : bapplyFun i d1 x
          = { x with originalPrice := some x.price, price := x.price * (1 - d1) } := by
        simp only [bapplyFun, if_pos hxp, hund, qOr]
      rw [h1]
      have hxp2 : (({ x with originalPrice := some x.price, price := x.price * (1 - d1) } : BItem).id == i) = true := hxp
      simp only [bapplyFun, if_pos hxp2, qOr]
      by_cases hp : x.price = 0
      · rw [if_pos hp, hp]; ring
      · rw [if_neg hp]
  · refine ⟨sapplyFun now2 d2 (sapplyFun now1 d1 x), ?_, ?_⟩
    · rw [getItem_sapply, getItem_sapply, hx, Option.map_some', Option.map_some']
    · have h1 : sapplyFun now1 d1 x
          = { x with originalPrice := some x.price, price := x.price * (1 - d1),
                     discountApplied := some d1, discountedAt := some now1 } := by
        simp only [sapplyFun, hund, qTruthy, Bool.false_eq_true, if_false, qOr, ite_self]
      rw [h1]
      by_cases hp : x.price = 0
      · have ht : qTruthy (some x.price) = false := by simp [qTruthy, hp]
        simp only [sapplyFun, ht, Bool.false_eq_true, if_false, qOr, ite_self]
        rw [hp]; ring
      · have ht : qTruthy (some x.price) = true := by simp [qTruthy, hp]
        simp only [sapplyFun, ht, if_true, qOr, if_neg hp]

/-- Witness for C1: item of price 100, 10% then 20% discount, final price
`100 * 0.8 = 80` in both implementations. -/
theorem applyDiscount_rebases_witness :
    (∃ y, getItem (billingReducer (billingReducer
        [{ id := 7, name := "X", price := 100, addedAt := "t0", category := "general" }]
        (.applyDiscount 7 (1/10))) (.applyDiscount 7 (1/5))) 7
      = some y ∧ y.price = 100 * (1 - 1/5)) ∧
    (∃ y, getItem (billingSlice.applyDiscount "t2" (billingSlice.applyDiscount "t1"
        [{ id := 7, name := "X", price := 100, addedAt := "t0", category := "general" }] 7 (1/10)) 7 (1/5)) 7
      = some y ∧ y.price = 100 * (1 - 1/5)) :=
  applyDiscount_rebases
    [{ id := 7, name := "X", price := 100, addedAt := "t0", category := "general" }]
    7 { id := 7, name := "X", price := 100, addedAt := "t0", category := "general" }
    (1/10) (1/5) "t1" "t2" (by decide) rfl (by norm_num) (by norm_num)

/-- The per-item function of the slice's `removeDiscount`. -/
def sremoveFun : BItem → BItem := fun item =>
  match item.originalPrice with
  | some v =>
      if v = 0 then item
      else { item with
             price := v
             originalPrice := none
             discountApplied := none
             discountedAt := none }
  | none => item

theorem sremoveFun_id (y : BItem) : (sremoveFun y).id = y.id := by
  cases h : y.originalPrice with
  | none => simp [sremoveFun, h]
  | some v =>
    by_cases hv : v = 0
    · simp [sremoveFun, h, hv]
    · simp [sremoveFun, h, hv]

/-- Looking up the target id after the slice's `removeDiscount`. -/
theorem getItem_sremove (now : String) (s : List BItem) (i : ℤ) :
    getItem (billingSlice.removeDiscount now s i) i = (getItem s i).map sremoveFun := by
  show ((modifyFirst (fun item => item.id == i) sremoveFun s).find? (fun item => item.id == i))
      = (s.find? (fun item => item.id == i)).map sremoveFun
  exact find?_modifyFirst _ _ (fun y => by rw [sremoveFun_id]) s

/-- Counterexample to C2 as stated: the claim quantifies over every billing
collection containing an undiscounted item, but for an item whose price is
`0`, `applyDiscount` stores `originalPrice = 0` and `removeDiscount`'s
guard `if (item.originalPrice)` treats `0` as falsy, so after the round
trip the `originalPrice` field is still present (with value `0`) instead
of absent. -/
theorem discount_roundtrip_cex :
    (getItem (billingSlice.removeDiscount "t2"
        (billingSlice.applyDiscount "t1"
          [{ id := 1, name := "Z", price := 0, addedAt := "t0", category := "general" }] 1 (1/10)) 1) 1).map
      (fun y => y.originalPrice) = some (some 0) := by decide

/-- C2 (amended): for an undiscounted item with *nonzero* price — billing
items are validated `price > 0` at add time — `ApplyDiscount(id, d)`
followed by `RemoveDiscount(id)` restores the item's price exactly to its
pre-discount value and leaves the `originalPrice` field absent; and
`RemoveDiscount` on an item with no `originalPrice` field is a no-op. -/
theorem discount_roundtrip (now1 now2 : String) (s : List BItem) (i : ℤ)
    (x : BItem) (d : ℚ)
    (hx : getItem s i = some x) (hund : x.originalPrice = none) (hp : x.price ≠ 0) :
    (∃ y, getItem (billingSlice.removeDiscount now2
          (billingSlice.applyDiscount now1 s i d) i) i
        = some y ∧ y.price = x.price ∧ y.originalPrice = none) ∧
    (∀ (s' : List BItem) (x' : BItem), getItem s' i = some x' → x'.originalPrice = none →
      billingSlice.removeDiscount now2 s' i = s') := by
  constructor
  · have h1 : sapplyFun now1 d x
        = { x with originalPrice := some x.price, price := x.price * (1 - d),
                   discountApplied := some d, discountedAt := some now1 } := by
      simp only [sapplyFun, hund, qTruthy, Bool.false_eq_true, if_false, qOr, ite_self]
    refine ⟨sremoveFun (sapplyFun now1 d x), ?_, ?_⟩
    · rw [getItem_sremove, getItem_sapply, hx, Option.map_some', Option.map_some']
    · rw [h1]
      simp [sremoveFun, hp]
  · intro s' x' hx' hund'
    exact modifyFirst_of_fix _ _ s' x' hx' (by simp [sremoveFun, hund'])

/-- Witness for C2 (amended): item of price 100, 10% discount applied and
removed, price restored to 100 and `originalPrice` absent; `removeDiscount`
on the undiscounted item is a no-op. -/
theorem discount_roundtrip_witness :
    (∃ y, getItem (billingSlice.removeDiscount "t2"
          (billingSlice.applyDiscount "t1"
            [{ id := 1, name := "W", price := 100, addedAt := "t0", category := "general" }] 1 (1/10)) 1) 1
        = some y ∧ y.price = 100 ∧ y.originalPrice = none) ∧
    billingSlice.removeDiscount "t2"
        [{ id := 1, name := "W", price := 100, addedAt := "t0", category := "general" }] 1
      = [{ id := 1, name := "W", price := 100, addedAt := "t0", category := "general" }] := by
  have h := discount_roundtrip "t1" "t2"
    [{ id := 1, name := "W", price := 100, addedAt := "t0", category := "general" }] 1
    { id := 1, name := "W", price := 100, addedAt := "t0", category := "general" }
    (1/10) (by decide) rfl (by norm_num)
  exact ⟨h.1, h.2
    [{ id := 1, name := "W", price := 100, addedAt := "t0", category := "general" }]
    { id := 1, name := "W", price := 100, addedAt := "t0", category := "general" }
    (by decide) rfl⟩

/-! ## Purity, id uniqueness, patch-id claims -/

/-- C3 (demonstration of the code bug): the slice reducers read the clock.
Dispatching the same `updateItem` / `applyDiscount` / `addItem` action on
the same state at two different clock readings yields different results
(they differ in the `updatedAt` / `discountedAt` / `addedAt` fields), so
the transition implemented by `billingSlice` is not a pure function of
(state, action), contrary to the specification. -/
theorem slice_reads_clock :
    billingSlice.updateItem "2024-01-01T00:00:00Z"
        [{ id := 1, name := "A", price := 10, addedAt := "t0", category := "general" }] 1 {}
      ≠ billingSlice.updateItem "2024-01-01T00:00:01Z"
        [{ id := 1, name := "A", price := 10, addedAt := "t0", category := "general" }] 1 {} ∧
    billingSlice.applyDiscount "2024-01-01T00:00:00Z"
        [{ id := 1, name := "A", price := 10, addedAt := "t0", category := "general" }] 1 (1/10)
      ≠ billingSlice.applyDiscount "2024-01-01T00:00:01Z"
        [{ id := 1, name := "A", price := 10, addedAt := "t0", category := "general" }] 1 (1/10) ∧
    billingSlice.addItem "2024-01-01T00:00:00Z" [] { id := 2, name := "B", price := 5 }
      ≠ billingSlice.addItem "2024-01-01T00:00:01Z" [] { id := 2, name := "B", price := 5 } := by
  refine ⟨fun h => ?_, fun h => ?_, fun h => ?_⟩
  · exact absurd (congrArg (List.map (fun y : BItem => y.updatedAt)) h) (by decide)
  · exact absurd (congrArg (List.map (fun y : BItem => y.discountedAt)) h) (by decide)
  · exact absurd (congrArg (List.map (fun y : BItem => y.addedAt)) h) (by decide)

/-- Counterexample to C7 as stated: the Add operation appends the payload
built by the caller, whose id is the `Date.now()` reading; two Add calls
in the same millisecond (equal `now`) produce two items with the same id,
so the ids of the resulting collection are not pairwise distinct. -/
theorem unique_ids_cex :
    (billingAddRun [⟨5, "A", 10, "t"⟩, ⟨5, "A", 10, "t"⟩]).length = 2 ∧
    ¬ ((billingAddRun [⟨5, "A", 10, "t"⟩, ⟨5, "A", 10, "t"⟩]).map (fun y => y.id)).Nodup := by
  refine ⟨by decide, by decide⟩

/-- C7 (amended): for every sequence of Add operations applied to the empty
collection whose `Date.now()` readings are strictly increasing (no two
calls in the same millisecond), the collection at every observation point
(every prefix of the sequence) has exactly one item per Add call and
pairwise distinct ids. -/
theorem unique_ids_of_mono (calls : List AddCall)
    (hmono : (calls.map (fun c => c.now)).Pairwise (· < ·)) (n : ℕ) :
    (billingAddRun (calls.take n)).length = (calls.take n).length ∧
    ((billingAddRun (calls.take n)).map (fun y => y.id)).Nodup := by
  have hrun : ∀ cs : List AddCall, billingAddRun cs = cs.map itemOfCall := by
    intro cs
    have h := foldl_append_eq_map itemOfCall cs ([] : List BItem)
    rw [List.nil_append] at h
    exact h
  constructor
  · rw [hrun, List.length_map]
  · rw [hrun, List.map_map]
    have hcomp : ((fun y : BItem => y.id) ∘ itemOfCall) = fun c : AddCall => c.now := rfl
    rw [hcomp]
    have h1 : ((calls.map (fun c => c.now)).take n).Pairwise (· < ·) :=
      List.Pairwise.sublist (List.take_sublist n _) hmono
    have h2 : ((calls.take n).map (fun c => c.now)).Pairwise (· < ·) := by
      rw [List.map_take]; exact h1
    exact List.Pairwise.imp ne_of_lt h2

/-- Witness for C7 (amended): two Add calls one millisecond apart give two
items with distinct ids. -/
theorem unique_ids_of_mono_witness :
    (billingAddRun ([⟨1, "A", 5, "t1"⟩, ⟨2, "B", 6, "t2"⟩].take 2)).length
      = (([⟨1, "A", 5, "t1"⟩, ⟨2, "B", 6, "t2"⟩] : List AddCall).take 2).length ∧
    ((billingAddRun ([⟨1, "A", 5, "t1"⟩, ⟨2, "B", 6, "t2"⟩].take 2)).map (fun y => y.id)).Nodup :=
  unique_ids_of_mono [⟨1, "A", 5, "t1"⟩, ⟨2, "B", 6, "t2"⟩] (by decide) 2

/-- C8 (demonstration of the code bug): the Update/patch operation merges
the patch with `{ ...item, ...updates }`, so a patch containing an `id`
field overwrites the item's id: patching item 1 with `{ id: 2 }` yields an
item whose id is 2, in both the local reducer and the slice, contrary to
the specification that the patch must not be permitted to change `id`. -/
theorem updateItem_changes_id :
    (billingReducer [{ id := 1, name := "A", price := 10, addedAt := "t0", category := "general" }]
        (.updateItem 1 { id := some 2 })).map (fun y => y.id) = [2] ∧
    (billingSlice.updateItem "t1"
        [{ id := 1, name := "A", price := 10, addedAt := "t0", category := "general" }]
        1 { id := some 2 }).map (fun y => y.id) = [2] := by
  refine ⟨by decide, by decide⟩

/-! ## Fallthrough and temporal claims -/

/-- C9: the reducers are total functions with no failure path; every
operation that references an id not present in the collection returns the
collection unchanged (value equality), and every action whose kind is
outside the recognized vocabulary hits the default branch and returns the
state unchanged — for the local billing reducer, the billing slice, the
blog reducer, and the cart reducer (the cart's `UPDATE_QTY` no-op uses the
data-model invariant `qty >= 1`). -/
theorem reducer_noop_fallthrough (s : List BItem) (sb : List Post) (sc : List CItem)
    (i : ℤ) (u : BPatch) (ub : PostPatch) (d : ℚ) (amt : ℤ) (t now : String) :
    ((∀ y ∈ s, y.id ≠ i) →
      billingReducer s (.removeItem i) = s ∧
      billingReducer s (.updateItem i u) = s ∧
      billingReducer s (.applyDiscount i d) = s ∧
      billingSlice.removeItem now s i = s ∧
      billingSlice.updateItem now s i u = s ∧
      billingSlice.applyDiscount now s i d = s ∧
      billingSlice.removeDiscount now s i = s) ∧
    billingReducer s (.other t) = s ∧
    ((∀ y ∈ sb, y.id ≠ i) →
      blogReducer sb (.deletePost i) = sb ∧
      blogReducer sb (.updatePost i ub) = sb) ∧
    blogReducer sb (.other t) = sb ∧
    ((∀ y ∈ sc, 1 ≤ y.qty) → (∀ y ∈ sc, y.id ≠ i) →
      cartReducer sc (.updateQty i amt) = sc) ∧
    cartReducer sc (.other t) = sc := by
  refine ⟨fun h => ?_, rfl, fun h => ?_, rfl, fun hq h => ?_, rfl⟩
  · have hfind : s.find? (fun item => item.id == i) = none :=
      List.find?_eq_none.2 (fun y hy => by simpa using h y hy)
    have hmap : ∀ (f : BItem → BItem),
        s.map (fun item => if item.id == i then f item else item) = s := by
      intro f
      exact map_eq_self_of _ s (fun y hy => by rw [if_neg (by simpa using h y hy)])
    refine ⟨?_, ?_, ?_, ?_, ?_, ?_, ?_⟩
    · exact filter_eq_self_of _ s (fun y hy => by simpa using h y hy)
    · exact hmap _
    · exact hmap _
    · exact filter_eq_self_of _ s (fun y hy => by simpa using h y hy)
    · exact modifyFirst_of_none _ _ s hfind
    · exact modifyFirst_of_none _ _ s hfind
    · exact modifyFirst_of_none _ _ s hfind
  · constructor
    · exact filter_eq_self_of _ sb (fun y hy => by simpa using h y hy)
    · exact map_eq_self_of _ sb (fun y hy => by rw [if_neg (by simpa using h y hy)])
  · simp only [cartReducer]
    rw [map_eq_self_of _ sc (fun y hy => by rw [if_neg (by simpa using h y hy)])]
    apply filter_eq_self_of
    intro y hy
    have := hq y hy
    show decide (y.qty > 0) = true
    simp only [decide_eq_true_eq]
    omega

/-- Witness for C9 at concrete inputs: removing / patching / discounting a
missing id, an unrecognized action type, and a cart quantity update for a
missing id all leave the concrete collections unchanged. -/
theorem reducer_noop_fallthrough_witness :
    billingReducer [{ id := 1, name := "A", price := 10, addedAt := "t0", category := "general" }]
        (.removeItem 9)
      = [{ id := 1, name := "A", price := 10, addedAt := "t0", category := "general" }] ∧
    billingSlice.updateItem "t"
        [{ id := 1, name := "A", price := 10, addedAt := "t0", category := "general" }] 9 {}
      = [{ id := 1, name := "A", price := 10, addedAt := "t0", category := "general" }] ∧
    blogReducer [{ id := 1, title := "P", content := "c", category := "Technology" }]
        (.other "SOMETHING_ELSE")
      = [{ id := 1, title := "P", content := "c", category := "Technology" }] ∧
    cartReducer [{ id := 1, name := "A", price := 10, qty := 2 }] (.updateQty 9 1)
      = [{ id := 1, name := "A", price := 10, qty := 2 }] := by
  have h := reducer_noop_fallthrough
    [{ id := 1, name := "A", price := 10, addedAt := "t0", category := "general" }]
    [{ id := 1, title := "P", content := "c", category := "Technology" }]
    [{ id := 1, name := "A", price := 10, qty := 2 }]
    9 {} {} (1/10) 1 "SOMETHING_ELSE" "t"
  exact ⟨(h.1 (by decide)).1, (h.1 (by decide)).2.2.2.2.1, h.2.2.2.1,
    h.2.2.2.2.1 (by decide) (by decide)⟩

/-- The action vocabulary actually dispatched by the `BillingUseReducer`
component, relative to a tracked item id `i`: `ADD_ITEM` payloads are
component-built (validated `price > 0`, no `originalPrice` field) and, by
the unique-id invariant, carry an id other than `i`; `REMOVE_ITEM` and
`CLEAR_ITEMS` are unrestricted; `APPLY_DISCOUNT` carries a discount
fraction strictly between 0 and 1 (the UI dispatches 10%).  The component
never dispatches `UPDATE_ITEM`, and unrecognized types are outside the
vocabulary. -/
def VocabOk (i : ℤ) : BAction → Prop
  | .addItem p => p.id ≠ i ∧ p.originalPrice = none ∧ 0 < p.price
  | .removeItem _ => True
  | .updateItem _ _ => False
  | .clearItems => True
  | .applyDiscount _ d => 0 < d ∧ d < 1
  | .other _ => False

/-- "The discount on item `i` is locked in": every item carrying id `i`
has an `originalPrice` field with a positive value strictly above its
current price. -/
def DiscLocked (i : ℤ) (s : List BItem) : Prop :=
  ∀ y ∈ s, y.id = i → ∃ op, y.originalPrice = some op ∧ 0 < op ∧ y.price < op

/-- One vocabulary action preserves `DiscLocked`. -/
theorem DiscLocked_step (i : ℤ) (s : List BItem) (a : BAction)
    (ha : VocabOk i a) (hs : DiscLocked i s) : DiscLocked i (billingReducer s a) := by
  cases a with
  | addItem p =>
    intro y hy hyi
    rcases List.mem_append.1 hy with h | h
    · exact hs y h hyi
    · rw [List.mem_singleton.1 h] at hyi
      exact absurd hyi ha.1
  | removeItem j =>
    intro y hy hyi
    exact hs y (List.mem_of_mem_filter hy) hyi
  | updateItem j u => exact ha.elim
  | clearItems =>
    intro y hy hyi
    exact absurd hy (List.not_mem_nil y)
  | applyDiscount j dd =>
    obtain ⟨hd0, hd1⟩ := ha
    intro y hy hyi
    simp only [billingReducer] at hy
    obtain ⟨z, hz, rfl⟩ := List.mem_map.1 hy
    by_cases hzj : (z.id == j) = true
    · rw [if_pos hzj] at hyi ⊢
      have hzi : z.id = i := hyi
      obtain ⟨op, hop, hop0, hlt⟩ := hs z hz hzi
      refine ⟨op, ?_, hop0, ?_⟩
      · show some (qOr z.originalPrice z.price) = some op
        rw [hop, qOr, if_neg (ne_of_gt hop0)]
      · show qOr z.originalPrice z.price * (1 - dd) < op
        rw [hop, qOr, if_neg (ne_of_gt hop0)]
        calc op * (1 - dd) < op * 1 := mul_lt_mul_of_pos_left (by linarith) hop0
          _ = op := mul_one op
    · rw [if_neg hzj] at hyi ⊢
      exact hs z hz hyi
  | other t => exact ha.elim

/-- A trace of vocabulary actions preserves `DiscLocked`. -/
theorem DiscLocked_run (i : ℤ) (acts : List BAction) (s : List BItem)
    (hs : DiscLocked i s) (ha : ∀ a ∈ acts, VocabOk i a) :
    DiscLocked i (acts.foldl billingReducer s) := by
  induction acts generalizing s with
  | nil => exact hs
  | cons a as ih =>
    exact ih (billingReducer s a)
      (DiscLocked_step i s a (ha a (List.mem_cons_self a as)) hs)
      (fun b hb => ha b (List.mem_cons_of_mem a hb))

/-- `APPLY_DISCOUNT` on an undiscounted, positively priced item
establishes `DiscLocked`. -/
theorem DiscLocked_establish (i : ℤ) (d : ℚ) (hd : 0 < d ∧ d < 1) (s : List BItem)
    (hs : ∀ y ∈ s, y.id = i → (y.originalPrice = none ∧ 0 < y.price)) :
    DiscLocked i (billingReducer s (.applyDiscount i d)) := by
  intro y hy hyi
  simp only [billingReducer] at hy
  obtain ⟨z, hz, rfl⟩ := List.mem_map.1 hy
  by_cases hzj : (z.id == i) = true
  · rw [if_pos hzj] at hyi ⊢
    have hzi : z.id = i := by simpa using hzj
    obtain ⟨hund, hpos⟩ := hs z hz hzi
    refine ⟨z.price, ?_, hpos, ?_⟩
    · show some (qOr z.originalPrice z.price) = some z.price
      rw [hund]
      rfl
    · show qOr z.originalPrice z.price * (1 - d) < z.price
      rw [hund]
      show z.price * (1 - d) < z.price
      calc z.price * (1 - d) < z.price * 1 := mul_lt_mul_of_pos_left (by linarith [hd.1]) hpos
        _ = z.price := mul_one z.price
  · rw [if_neg hzj] at hyi ⊢
    exact absurd (by simp [hyi] : (z.id == i) = true) hzj

/-- C10: in the `BillingUseReducer` variant, discounts are irrevocable.
Starting from a collection whose items with the tracked id are
undiscounted with positive price, once `APPLY_DISCOUNT` sets
`originalPrice`, no trace of the variant's dispatched vocabulary
(`ADD_ITEM`, `REMOVE_ITEM`, `CLEAR_ITEMS`, `APPLY_DISCOUNT` — there is no
remove-discount action, and anything else falls through unchanged) ever
deletes that item's `originalPrice` field or restores its price to
`originalPrice` while the item remains in the collection: at every
observation point (every prefix length `n`), every item carrying the id
still has `originalPrice` present and `price` strictly below it. -/
theorem discount_irrevocable (s : List BItem) (i : ℤ) (d : ℚ)
    (hd : 0 < d ∧ d < 1)
    (hs : ∀ y ∈ s, y.id = i → (y.originalPrice = none ∧ 0 < y.price))
    (acts : List BAction) (hacts : ∀ a ∈ acts, VocabOk i a) (n : ℕ) :
    ∀ y ∈ (acts.take n).foldl billingReducer (billingReducer s (.applyDiscount i d)),
      y.id = i → ∃ op, y.originalPrice = some op ∧ 0 < op ∧ y.price < op :=
  DiscLocked_run i (acts.take n) _ (DiscLocked_establish i d hd s hs)
    (fun a ha => hacts a ((List.take_sublist n acts).subset ha))

/-- Witness for C10: item 1 at price 100 is discounted 10%, then the trace
re-applies a 20% discount and adds an unrelated item; at the end the item
still carries `originalPrice = 100` with its price strictly below it. -/
theorem discount_irrevocable_witness :
    ∃ op, ({ id := 1, name := "A", price := 100 * (1 - 1/5), addedAt := "t0",
             category := "general", originalPrice := some 100 } : BItem).originalPrice
        = some op ∧
      0 < op ∧
      ({ id := 1, name := "A", price := 100 * (1 - 1/5), addedAt := "t0",
         category := "general", originalPrice := some 100 } : BItem).price < op := by
  have hacts : ∀ a ∈ [BAction.applyDiscount 1 (1/5),
      BAction.addItem { id := 2, name := "B", price := 5, addedAt := "t1", category := "general" }],
      VocabOk 1 a := by
    intro a ha
    simp only [List.mem_cons, List.not_mem_nil, or_false] at ha
    rcases ha with rfl | rfl
    · exact ⟨by norm_num, by norm_num⟩
    · exact ⟨by decide, rfl, by norm_num⟩
  exact discount_irrevocable
    [{ id := 1, name := "A", price := 100, addedAt := "t0", category := "general" }] 1 (1/10)
    ⟨by norm_num, by norm_num⟩ (by decide)
    [BAction.applyDiscount 1 (1/5),
     BAction.addItem { id := 2, name := "B", price := 5, addedAt := "t1", category := "general" }]
    hacts 2
    { id := 1, name := "A", price := 100 * (1 - 1/5), addedAt := "t0",
      category := "general", originalPrice := some 100 }
    (List.mem_cons_self _ _) rfl
